import Mathlib

/-!
Shallow embedding of the `next-fhi-cli` scaffolding tool (`src/cli.ts`)
and of the pre-commit naming-convention validator script
(`validate-naming.js`) that `setupHusky` writes into a generated project.

The embedding follows the TypeScript/JavaScript source line by line:
  * JavaScript strings are Lean `String`s; character-class regular
    expressions are decidable predicates over the string's characters.
  * `filename.split('.')[0]` is the prefix of the string before its first
    `'.'` character (the whole string when there is no dot).
  * `path.sep` is `'/'` (the generated hook runs the script on the paths
    printed by `git diff --cached --name-only`, which are `/`-separated
    relative paths).
  * The `init` command's side effects (external-process invocations, file
    writes, file reads, warnings) are modelled as an explicit event trace
    produced by a pure function of the environment flags that say which
    fallible step fails.
-/

namespace NextCli

/-! ## String helpers (JavaScript semantics) -/

/-- JavaScript `s.startsWith(p)`: `p.data` is a prefix of `s.data`. -/
def strStartsWith (s p : String) : Bool :=
  p.data.isPrefixOf s.data

/-- JavaScript `s.endsWith(p)`: `p.data` is a suffix of `s.data`. -/
def strEndsWith (s p : String) : Bool :=
  p.data.isSuffixOf s.data

/-- JavaScript `s.includes(sub)`: `sub.data` occurs contiguously in `s.data`. -/
def strIncludes (s sub : String) : Bool :=
  s.data.tails.any (fun t => sub.data.isPrefixOf t)

/-- Auxiliary single-character split, accumulating the current segment
in reverse.  Mirrors JavaScript `String.prototype.split` with a
one-character separator: `"a/b".split('/') = ["a","b"]`,
`"".split('/') = [""]`, `"a/".split('/') = ["a",""]`. -/
def splitCharAux (sep : Char) : List Char → List Char → List String
  | [], acc => [String.mk acc.reverse]
  | c :: cs, acc =>
    if c = sep then String.mk acc.reverse :: splitCharAux sep cs []
    else splitCharAux sep cs (c :: acc)

/-- JavaScript `s.split(sep)` for a one-character separator. -/
def splitChar (sep : Char) (s : String) : List String :=
  splitCharAux sep s.data []

/-! ## The two regular expressions of `validate-naming.js`

`const kebabCase = /^[a-z0-9-]+$/;`
`const pascalCase = /^[A-Z][a-zA-Z0-9]*$/;`
-/

/-- Membership in the character class `[a-z0-9-]`. -/
def isKebabChar (c : Char) : Bool :=
  (('a' ≤ c && c ≤ 'z') || ('0' ≤ c && c ≤ '9') || c == '-')

/-- Membership in the character class `[a-zA-Z0-9]`. -/
def isAlnumChar (c : Char) : Bool :=
  (('a' ≤ c && c ≤ 'z') || ('A' ≤ c && c ≤ 'Z') || ('0' ≤ c && c ≤ '9'))

/-- `kebabCase.test(s)` for `/^[a-z0-9-]+$/`: one or more characters,
all drawn from `[a-z0-9-]`. -/
def kebabCase (s : String) : Bool :=
  !s.data.isEmpty && s.data.all isKebabChar

/-- `pascalCase.test(s)` for `/^[A-Z][a-zA-Z0-9]*$/`: a first character in
`[A-Z]` followed by zero or more characters in `[a-zA-Z0-9]`. -/
def pascalCase (s : String) : Bool :=
  match s.data with
  | [] => false
  | c :: cs => ('A' ≤ c && c ≤ 'Z') && cs.all isAlnumChar

/-! ## `validate-naming.js`: file and folder checks -/

/-- `isComponentFile(filename)`:
`filename.endsWith('.tsx') || filename.endsWith('.jsx')`. -/
def isComponentFile (filename : String) : Bool :=
  strEndsWith filename ".tsx" || strEndsWith filename ".jsx"

/-- `filename.split('.')[0]`: the part of the name before the first `'.'`
(the whole name when it has no dot; the empty string when it starts
with a dot). -/
def nameWithoutExt (filename : String) : String :=
  String.mk (filename.data.takeWhile (fun c => c != '.'))

/-- `const specialFiles = [...]` inside `validateFileName`. -/
def specialFiles : List String :=
  ["route", "layout", "page", "loading", "error", "not-found", "default",
   "template"]

/-- `validateFileName(filename, filePath, isComponent)`.  The `filePath`
argument of the script is used only in the error messages it prints, so
it is dropped here; `true` means the name is accepted. -/
def validateFileName (filename : String) (isComponent : Bool) : Bool :=
  let nwe := nameWithoutExt filename
  if specialFiles.contains nwe then true
  else if isComponent then pascalCase nwe
  else kebabCase nwe

/-- `const specialFolders = [...]` inside `validateFolderName`. -/
def specialFolders : List String :=
  ["api", "ui", "app", "lib", "components", "utils", "actions", "hooks",
   "validations", "store", "types", "forms", "layouts"]

/-- `validateFolderName(folderName, folderPath)`; `folderPath` again only
feeds the printed message and is dropped. -/
def validateFolderName (folderName : String) : Bool :=
  if strStartsWith folderName "_" || strStartsWith folderName "[" ||
      strStartsWith folderName "(" then true
  else if specialFolders.contains folderName then true
  else kebabCase folderName

/-! ## `validate-naming.js`: the per-path loop

For each staged path the script computes
`relativePath = path.relative(process.cwd(), file)`; the hook passes the
already-relative output of `git diff --cached --name-only`, so relative
paths are taken as given here.  The script then skips paths containing
`node_modules`, `.next`, `dist` or `.git`, skips paths not starting with
`src/`, and otherwise validates the final segment as a file name and the
intermediate segments (indices `1 .. parts.length-2`) as folder names.
-/

/-- The skip test at the top of the `forEach` body. -/
def skipPath (p : String) : Bool :=
  strIncludes p "node_modules" || strIncludes p ".next" ||
  strIncludes p "dist" || strIncludes p ".git"

/-- A path is examined (validated) iff it is not skipped and starts with
`src/`. -/
def examined (p : String) : Bool :=
  !skipPath p && strStartsWith p "src/"

/-- `const parts = relativePath.split(path.sep)` with `path.sep = '/'`. -/
def pathParts (p : String) : List String :=
  splitChar '/' p

/-- `const filename = parts[parts.length - 1]`. -/
def basenameOf (p : String) : String :=
  (pathParts p).getLastD ""

/-- The folder segments visited by `for (let i = 1; i < parts.length - 1; i++)`:
all parts except the first (`src`) and the last (the file name). -/
def folderSegments (p : String) : List String :=
  ((pathParts p).drop 1).dropLast

/-- An examined path whose file name fails `validateFileName` (this is the
first way the loop body sets `hasError`). -/
def fileNameViolation (p : String) : Bool :=
  examined p && !validateFileName (basenameOf p) (isComponentFile (basenameOf p))

/-- An examined path one of whose folder segments fails
`validateFolderName` (the second way the loop body sets `hasError`). -/
def folderViolation (p : String) : Bool :=
  examined p && (folderSegments p).any (fun f => !validateFolderName f)

/-- The loop body's contribution of one staged path to `hasError`. -/
def pathError (p : String) : Bool :=
  fileNameViolation p || folderViolation p

/-- `hasError` after the `forEach` over all staged paths. -/
def hasErrorRun (files : List String) : Bool :=
  files.any pathError

/-- The two possible outcomes of the script: `process.exit(1)` after the
error summary, or normal termination printing the success message. -/
inductive ValidatorOutcome where
  | exitOne
  | success
  deriving DecidableEq

/-- The whole `validate-naming.js` run on the staged-path list: exit
status 1 when `hasError`, otherwise normal termination. -/
def runValidator (files : List String) : ValidatorOutcome :=
  if hasErrorRun files then ValidatorOutcome.exitOne else ValidatorOutcome.success

/-- The generated script `require`s `fs` but never calls it, and consults
nothing besides its `argv` path list (and the working directory used to
relativize them).  The embedding therefore takes an arbitrary ambient
state as an explicit parameter that the computation does not consult:
this is a faithful rendering of a script with no state-reading calls. -/
def runValidatorInState (σ : Type) (_state : σ) (files : List String) :
    ValidatorOutcome :=
  runValidator files

/-! ## The `init` command

The `init` action of `cli.ts` is a straight-line sequence of external
process invocations (`execSync`) and filesystem operations.  Its side
effects are modelled as an event trace; which fallible steps fail is an
environment of boolean flags.  File paths are taken relative to the
project directory (`basePath`) that `path.join(basePath, …)` prefixes
everywhere. -/

/-- One observable side effect of a run of `init`.
`cmd` is an `execSync` invocation; `mkdir` is `fs.ensureDir`;
`fwrite`/`fread` are `fs.writeFile`/`fs.writeJSON` and `fs.readJSON`;
`chmod` is `fs.chmod`; `warnMsg` tags the best-effort steps' warning
messages (`spinner.warn` / the yellow `console.log`); `errReport` is the
outer catch's `console.error` of the fatal error. -/
inductive Ev where
  | cmd (s : String)
  | mkdir (p : String)
  | fwrite (p : String)
  | fread (p : String)
  | chmod (p : String)
  | warnMsg (tag : String)
  | errReport
  deriving DecidableEq

/-- Which fallible operations of a run fail.  `folderExists` is the
`fs.existsSync(targetPath)` pre-check; `createdOk` is the post-check that
the directory exists after `create-next-app`; the remaining flags say
whether the corresponding `execSync` throws.  Plain `fs` writes are
assumed to succeed. -/
structure InitEnv where
  folderExists : Bool
  createFails : Bool
  createdOk : Bool
  addAuthFails : Bool
  addFormFails : Bool
  addStateFails : Bool
  addDbFails : Bool
  addDevFails : Bool
  shadcnFails : Bool
  huskyInitFails : Bool
  prismaInitFails : Bool
  deriving DecidableEq

/-- `const authDependencies = [...]`. -/
def authDependencies : List String :=
  ["next-auth@^4.24.5", "bcryptjs", "jsonwebtoken", "clsx", "tailwind-merge"]

/-- `const formDependencies = [...]`. -/
def formDependencies : List String :=
  ["react-hook-form", "zod", "@hookform/resolvers"]

/-- `const stateDependencies = [...]`. -/
def stateDependencies : List String :=
  ["zustand"]

/-- `const databaseDependencies = [...]`. -/
def databaseDependencies : List String :=
  ["@prisma/client@^6.7.0"]

/-- `const devDependencies = [...]`. -/
def devDependencies : List String :=
  ["prisma@^6.7.0", "@types/bcryptjs", "@types/jsonwebtoken", "vitest",
   "@vitejs/plugin-react", "@playwright/test", "husky", "lint-staged",
   "prettier"]

/-- The `create-next-app` invocation; the only command that mentions the
project name. -/
def createCmd (name : String) : String :=
  "pnpm create next-app@latest " ++ name ++
    " --typescript --tailwind --eslint --app --src-dir --import-alias \"@/*\" --turbopack --no-git"

/-- `pnpm add` over the auth batch. -/
def addAuthCmd : String := "pnpm add " ++ String.intercalate " " authDependencies

/-- `pnpm add` over the form batch. -/
def addFormCmd : String := "pnpm add " ++ String.intercalate " " formDependencies

/-- `pnpm add` over the state batch. -/
def addStateCmd : String := "pnpm add " ++ String.intercalate " " stateDependencies

/-- `pnpm add` over the database batch. -/
def addDbCmd : String := "pnpm add " ++ String.intercalate " " databaseDependencies

/-- `pnpm add -D` over the dev batch. -/
def addDevCmd : String := "pnpm add -D " ++ String.intercalate " " devDependencies

/-- The shadcn component install. -/
def shadcnCmd : String := "pnpm dlx shadcn@latest add button input label --yes"

/-- The husky bootstrap. -/
def huskyInitCmd : String := "pnpm dlx husky@latest init"

/-- The prisma bootstrap. -/
def prismaInitCmd : String := "pnpm exec prisma init --datasource-provider sqlserver"

/-- `createProjectStructure(basePath)`: the 16 `fs.ensureDir` calls, the
two `.gitkeep` writes, `ensureDir('src/utils')` and the `check-db.ts`
write, in program order. -/
def structureEvents : List Ev :=
  [Ev.mkdir "src/app/api/auth/[...nextauth]", Ev.mkdir "src/components/ui",
   Ev.mkdir "src/components/forms", Ev.mkdir "src/components/layouts",
   Ev.mkdir "src/lib/actions", Ev.mkdir "src/lib/api",
   Ev.mkdir "src/lib/utils", Ev.mkdir "src/lib/validations",
   Ev.mkdir "src/lib/hooks", Ev.mkdir "src/store", Ev.mkdir "src/types",
   Ev.mkdir "prisma", Ev.mkdir "public/images", Ev.mkdir "public/icons",
   Ev.mkdir "__tests__/unit", Ev.mkdir "__tests__/e2e",
   Ev.fwrite "src/components/forms/.gitkeep",
   Ev.fwrite "src/components/layouts/.gitkeep",
   Ev.mkdir "src/utils",
   Ev.fwrite "src/utils/check-db.ts"]

/-- `createConfigFiles(basePath)`: template writes, then the
`package.json` read-modify-write that merges the script entries. -/
def configEvents : List Ev :=
  [Ev.fwrite "vitest.config.ts",
   Ev.fwrite "playwright.config.ts",
   Ev.fwrite ".prettierrc",
   Ev.fwrite "__tests__/setup.ts",
   Ev.mkdir "src/store",
   Ev.fwrite "src/store/user-store.ts",
   Ev.mkdir "src/lib/utils",
   Ev.fwrite "src/lib/utils/cn.ts",
   Ev.mkdir "src/lib/validations",
   Ev.fwrite "src/lib/validations/auth.ts",
   Ev.mkdir "src/app/api/auth/[...nextauth]",
   Ev.fwrite "src/app/api/auth/[...nextauth]/route.ts",
   Ev.fread "package.json",
   Ev.fwrite "package.json"]

/-- `setupShadcn(basePath)`: write `components.json`, then attempt the
shadcn install; its own `try/catch` turns a failure into a printed
warning. -/
def shadcnEvents (fails : Bool) : List Ev :=
  [Ev.fwrite "components.json", Ev.cmd shadcnCmd] ++
  (if fails then [Ev.warnMsg "shadcn"] else [])

/-- `setupHusky(basePath)`: the pre-commit hook (written twice: once with
the plain `lint-staged` body, once with the naming-validation line added),
the `package.json` read-modify-write that adds the `lint-staged` section,
and the `validate-naming.js` script. -/
def huskyEvents : List Ev :=
  [Ev.fwrite ".husky/pre-commit",
   Ev.chmod ".husky/pre-commit",
   Ev.fread "package.json",
   Ev.fwrite "package.json",
   Ev.fwrite ".husky/validate-naming.js",
   Ev.fwrite ".husky/pre-commit"]

/-- `setupPrisma(basePath)`: schema, db helper and `.env.example`. -/
def prismaEvents : List Ev :=
  [Ev.fwrite "prisma/schema.prisma",
   Ev.fwrite "src/lib/db.ts",
   Ev.fwrite ".env.example"]

/-- The `init` action as a pure function from the failure environment and
the project name to the event trace and the process exit status
(`0` for normal termination, `1` for `process.exit(1)`).

Control flow mirrors `cli.ts`: the `fs.existsSync` pre-check exits
before anything else; a throw from `create-next-app`, the missing-folder
check, or any of the five `pnpm add` batches reaches the outer `catch`,
which reports the error and exits 1; the shadcn, husky and prisma steps
catch their own failures and only warn, with `setupPrisma` running in
both branches of its `try/catch` and `setupHusky` skipped when
`husky init` throws. -/
def initRun (env : InitEnv) (name : String) : List Ev × Nat :=
  if env.folderExists then ([], 1)
  else
    let t1 := [Ev.cmd (createCmd name)]
    if env.createFails then (t1 ++ [Ev.errReport], 1)
    else if !env.createdOk then (t1 ++ [Ev.errReport], 1)
    else
      let t2 := t1 ++ [Ev.cmd addAuthCmd]
      if env.addAuthFails then (t2 ++ [Ev.errReport], 1)
      else
        let t3 := t2 ++ [Ev.cmd addFormCmd]
        if env.addFormFails then (t3 ++ [Ev.errReport], 1)
        else
          let t4 := t3 ++ [Ev.cmd addStateCmd]
          if env.addStateFails then (t4 ++ [Ev.errReport], 1)
          else
            let t5 := t4 ++ [Ev.cmd addDbCmd]
            if env.addDbFails then (t5 ++ [Ev.errReport], 1)
            else
              let t6 := t5 ++ [Ev.cmd addDevCmd]
              if env.addDevFails then (t6 ++ [Ev.errReport], 1)
              else
                let t7 := t6 ++ structureEvents ++ configEvents ++
                  shadcnEvents env.shadcnFails ++
                  [Ev.cmd huskyInitCmd] ++
                  (if env.huskyInitFails then [Ev.warnMsg "husky"]
                   else huskyEvents) ++
                  [Ev.cmd prismaInitCmd] ++
                  (if env.prismaInitFails then [Ev.warnMsg "prisma"] else []) ++
                  prismaEvents
                (t7, 0)

/-- The external commands invoked during a run, in order. -/
def commandsOf (tr : List Ev) : List String :=
  tr.filterMap (fun e => match e with | Ev.cmd s => some s | _ => none)

/-- The paths written during a run, in order. -/
def writesOf (tr : List Ev) : List String :=
  tr.filterMap (fun e => match e with | Ev.fwrite p => some p | _ => none)

/-- The directories created during a run, in order. -/
def mkdirsOf (tr : List Ev) : List String :=
  tr.filterMap (fun e => match e with | Ev.mkdir p => some p | _ => none)

/-- The paths that are read after having previously been written within
the same trace: a left scan that accumulates the set of written paths
and collects every `fread` of a path already in it. -/
def readsAfterWrite : List Ev → List String → List String
  | [], _ => []
  | Ev.fwrite p :: rest, ws => readsAfterWrite rest (p :: ws)
  | Ev.fread p :: rest, ws =>
    if ws.contains p then p :: readsAfterWrite rest ws
    else readsAfterWrite rest ws
  | _ :: rest, ws => readsAfterWrite rest ws

/-- The read-back paths of a whole trace. -/
def readBackPaths (tr : List Ev) : List String :=
  readsAfterWrite tr []

/-- The environment of a fully successful run: the target directory does
not pre-exist, `create-next-app` succeeds and creates it, and every other
fallible step succeeds. -/
def happyEnv : InitEnv :=
  { folderExists := false, createFails := false, createdOk := true,
    addAuthFails := false, addFormFails := false, addStateFails := false,
    addDbFails := false, addDevFails := false, shadcnFails := false,
    huskyInitFails := false, prismaInitFails := false }

/-! ## The command-line surface and the interactive prompt -/

/-- One registered subcommand of the `commander` program: its name and
whether its single positional argument is optional (square brackets in
`.argument("[project-name]")`). -/
structure SubcommandSpec where
  cname : String
  argOptional : Bool
  deriving DecidableEq

/-- The subcommands registered on `program`: exactly one call to
`program.command`, namely `init` with the optional `[project-name]`. -/
def cliSubcommands : List SubcommandSpec :=
  [{ cname := "init", argOptional := true }]

/-- The `validate` callback of the `inquirer` prompt, as acceptance:
`!input` rejects the empty string, then `/^[a-z0-9-]+$/` must match
(each failing branch returns an error message in the source; `true`
means the input is accepted). -/
def promptAccepts (input : String) : Bool :=
  if input = "" then false
  else if !kebabCase input then false
  else true

/-- The paths read (`fs.readJSON`) during a run, in order. -/
def freadsOf (tr : List Ev) : List String :=
  tr.filterMap (fun e => match e with | Ev.fread p => some p | _ => none)

/-- The disjunction of the failure flags that reach the outer `catch` of
the `init` action (given that the target directory does not pre-exist
and `create-next-app` leaves the directory in place): the
`create-next-app` invocation and the five `pnpm add` batches. -/
def fatalFlag (env : InitEnv) : Bool :=
  env.createFails || env.addAuthFails || env.addFormFails ||
  env.addStateFails || env.addDbFails || env.addDevFails

/-! ## Theorems for the claims -/

/-- C1 counterexample.  The claim states that a component file (name
ending in `.tsx`/`.jsx`) passes the validator iff its pre-dot name
matches `/^[A-Z][a-zA-Z0-9]*$/`.  The examined staged path
`src/app/page.tsx` is a component file that passes although `page` does
not match PascalCase (it is on the special-files allow-list), so the
stated equivalence is false. -/
theorem component_pass_not_iff_pascal :
    examined "src/app/page.tsx" = true ∧
    isComponentFile (basenameOf "src/app/page.tsx") = true ∧
    validateFileName (basenameOf "src/app/page.tsx")
      (isComponentFile (basenameOf "src/app/page.tsx")) = true ∧
    pascalCase (nameWithoutExt (basenameOf "src/app/page.tsx")) = false := by
  decide

/-- C1 (amended).  A file name is classified as a component iff it ends
with `.tsx` or `.jsx`; and outside the special-names allow-list, a
component file passes iff its pre-dot name matches the PascalCase regular
expression while a non-component file passes iff it matches the
kebab-case regular expression. -/
theorem naming_rule_outside_allowlist (fn : String) :
    (isComponentFile fn = true ↔
      (strEndsWith fn ".tsx" = true ∨ strEndsWith fn ".jsx" = true)) ∧
    (specialFiles.contains (nameWithoutExt fn) = false →
      (validateFileName fn (isComponentFile fn) = true ↔
        (if isComponentFile fn then pascalCase (nameWithoutExt fn)
         else kebabCase (nameWithoutExt fn)) = true)) := by
  constructor
  · simp [isComponentFile]
  · intro h
    have h2 : nameWithoutExt fn ∉ specialFiles := by simpa using h
    cases hc : isComponentFile fn <;> simp [validateFileName, h2, hc]

/-- C1 witness: the amended rule applied to the concrete component file
`UserProfile.tsx`, which is outside the allow-list and passes. -/
theorem naming_rule_outside_allowlist_witness :
    specialFiles.contains (nameWithoutExt "UserProfile.tsx") = false ∧
    validateFileName "UserProfile.tsx" (isComponentFile "UserProfile.tsx") = true :=
  ⟨by decide,
    ((naming_rule_outside_allowlist "UserProfile.tsx").2 (by decide)).mpr
      (by decide)⟩

/-- C2: any file name whose part before the first `'.'` is on the
special-files allow-list is accepted by `validateFileName`
unconditionally, whatever its extension and whether or not it is
classified as a component. -/
theorem special_name_always_accepted (fn : String) (isComp : Bool)
    (h : specialFiles.contains (nameWithoutExt fn) = true) :
    validateFileName fn isComp = true := by
  have h2 : nameWithoutExt fn ∈ specialFiles := by simpa using h
  simp [validateFileName, h2]

/-- C2 witness: `not-found.ts` (treated as a non-component) is accepted
even though `not-found` would also be checked against kebab-case, and
`loading.config.tsx` (treated as a component) is accepted even though
`loading` is not PascalCase. -/
theorem special_name_always_accepted_witness :
    validateFileName "not-found.ts" false = true ∧
    validateFileName "loading.config.tsx" true = true :=
  ⟨special_name_always_accepted "not-found.ts" false (by decide),
   special_name_always_accepted "loading.config.tsx" true (by decide)⟩

/-- C3: the validator script has exactly two outcomes — `process.exit(1)`
(after the per-file error messages and the summary) and normal
termination (printing the success message) — and it exits with status 1
iff some staged path's file name or folder segment fails its check. -/
theorem validator_two_outcomes (files : List String) :
    (runValidator files = ValidatorOutcome.exitOne ∨
      runValidator files = ValidatorOutcome.success) ∧
    (runValidator files = ValidatorOutcome.exitOne ↔
      ∃ p ∈ files, fileNameViolation p = true ∨ folderViolation p = true) := by
  have hiff : hasErrorRun files = true ↔
      ∃ p ∈ files, fileNameViolation p = true ∨ folderViolation p = true := by
    simp [hasErrorRun, List.any_eq_true, pathError]
  constructor
  · by_cases hb : hasErrorRun files = true <;> simp [runValidator, hb]
  · rw [← hiff]
    by_cases hb : hasErrorRun files = true <;> simp [runValidator, hb]

/-- C7: the CLI registers exactly the one subcommand `init` with an
optional positional argument, and the interactive prompt accepts an
input iff it is non-empty and matches `/^[a-z0-9-]+$/`. -/
theorem cli_surface_and_prompt :
    cliSubcommands = [{ cname := "init", argOptional := true }] ∧
    ∀ s : String, promptAccepts s = true ↔ (s ≠ "" ∧ kebabCase s = true) := by
  refine ⟨rfl, fun s => ?_⟩
  by_cases he : s = ""
  · simp [promptAccepts, he]
  · cases hk : kebabCase s <;> simp [promptAccepts, he, hk]

/-- C8: the validator is deterministic and stateless — its outcome is a
function of the staged-path list alone, unchanged under any ambient
state, so two runs on the same list agree. -/
theorem validator_stateless (σ : Type) (w1 w2 : σ) (files : List String) :
    runValidatorInState σ w1 files = runValidatorInState σ w2 files ∧
    runValidatorInState σ w1 files = runValidator files :=
  ⟨rfl, rfl⟩

/-- C4: when the target directory does not pre-exist and `create-next-app`
leaves it in place, a failure of `create-next-app` or of any of the five
`pnpm add` batches reaches the outer catch, which reports the error and
exits with status 1; when none of those fail, the run terminates with
status 0, and each of the shadcn, husky and prisma steps merely records
its warning when it fails. -/
theorem init_fatal_vs_best_effort (env : InitEnv) (name : String)
    (h1 : env.folderExists = false) (h2 : env.createdOk = true) :
    (fatalFlag env = true →
      (initRun env name).2 = 1 ∧ Ev.errReport ∈ (initRun env name).1) ∧
    (fatalFlag env = false →
      (initRun env name).2 = 0 ∧
      (env.shadcnFails = true → Ev.warnMsg "shadcn" ∈ (initRun env name).1) ∧
      (env.huskyInitFails = true → Ev.warnMsg "husky" ∈ (initRun env name).1) ∧
      (env.prismaInitFails = true →
        Ev.warnMsg "prisma" ∈ (initRun env name).1)) := by
  obtain ⟨fe, cf, co, a1, a2, a3, a4, a5, sf, hf, pf⟩ := env
  subst h1
  subst h2
  constructor
  · intro hfat
    simp only [fatalFlag] at hfat
    cases cf <;> cases a1 <;> cases a2 <;> cases a3 <;> cases a4 <;>
      cases a5 <;> simp_all [initRun]
  · intro hfat
    simp only [fatalFlag, Bool.or_eq_false_iff] at hfat
    obtain ⟨⟨⟨⟨⟨e1, e2⟩, e3⟩, e4⟩, e5⟩, e6⟩ := hfat
    subst e1; subst e2; subst e3; subst e4; subst e5; subst e6
    cases sf <;> cases hf <;> cases pf <;>
      simp [initRun, shadcnEvents, structureEvents, configEvents,
        huskyEvents, prismaEvents]

/-- C4 witness: with only the shadcn install failing, the run still
terminates with status 0 and the shadcn warning is in the trace. -/
theorem init_fatal_vs_best_effort_witness :
    (initRun { happyEnv with shadcnFails := true } "demo").2 = 0 ∧
    Ev.warnMsg "shadcn" ∈ (initRun { happyEnv with shadcnFails := true } "demo").1 := by
  have h := init_fatal_vs_best_effort { happyEnv with shadcnFails := true }
    "demo" (by decide) (by decide)
  exact ⟨(h.2 (by decide)).1, (h.2 (by decide)).2.1 (by decide)⟩

/-- C5 counterexample.  The claim states that no file written by the
scaffolder is ever read back in the same run.  In the fully successful
run, `createConfigFiles` writes `package.json` and `setupHusky` later
reads it back (to merge the `lint-staged` section), so the read-back
list is not empty. -/
theorem init_reads_back_package_json :
    (initRun happyEnv "my-app").2 = 0 ∧
    readBackPaths (initRun happyEnv "my-app").1 = ["package.json"] := by
  decide

/-- Every path collected by `readsAfterWrite` comes from an `fread` event
of the trace. -/
theorem mem_readsAfterWrite_mem_freads :
    ∀ (l : List Ev) (ws : List String) (p : String),
      p ∈ readsAfterWrite l ws → p ∈ freadsOf l := by
  intro l
  induction l with
  | nil => intro ws p h; simp [readsAfterWrite] at h
  | cons e rest ih =>
    intro ws p h
    cases e with
    | cmd s =>
      simp only [readsAfterWrite] at h
      simpa [freadsOf] using ih ws p h
    | mkdir q =>
      simp only [readsAfterWrite] at h
      simpa [freadsOf] using ih ws p h
    | fwrite q =>
      simp only [readsAfterWrite] at h
      simpa [freadsOf] using ih (q :: ws) p h
    | fread q =>
      have hfr : freadsOf (Ev.fread q :: rest) = q :: freadsOf rest := by
        simp [freadsOf]
      rw [hfr]
      by_cases hw : ws.contains q = true
      · have hw2 : q ∈ ws := by simpa using hw
        have he : readsAfterWrite (Ev.fread q :: rest) ws =
            q :: readsAfterWrite rest ws := by
          simp [readsAfterWrite, hw2]
        rw [he] at h
        rcases List.mem_cons.mp h with h1 | h1
        · exact List.mem_cons.mpr (Or.inl h1)
        · exact List.mem_cons.mpr (Or.inr (ih ws p h1))
      · have hw2 : q ∉ ws := by simpa using hw
        have he : readsAfterWrite (Ev.fread q :: rest) ws =
            readsAfterWrite rest ws := by
          simp [readsAfterWrite, hw2]
        rw [he] at h
        exact List.mem_cons.mpr (Or.inr (ih ws p h))
    | chmod q =>
      simp only [readsAfterWrite] at h
      simpa [freadsOf] using ih ws p h
    | warnMsg s =>
      simp only [readsAfterWrite] at h
      simpa [freadsOf] using ih ws p h
    | errReport =>
      simp only [readsAfterWrite] at h
      simpa [freadsOf] using ih ws p h

/-- The only path any run of `init` ever reads is `package.json`. -/
theorem initRun_fread_only_package_json (env : InitEnv) (name : String)
    (p : String) (h : p ∈ freadsOf (initRun env name).1) :
    p = "package.json" := by
  obtain ⟨fe, cf, co, a1, a2, a3, a4, a5, sf, hf, pf⟩ := env
  cases fe with
  | true => simp [initRun, freadsOf] at h
  | false =>
    cases cf with
    | true => simp [initRun, freadsOf] at h
    | false =>
      cases co with
      | false => simp [initRun, freadsOf] at h
      | true =>
        cases a1 with
        | true => simp [initRun, freadsOf] at h
        | false =>
          cases a2 with
          | true => simp [initRun, freadsOf] at h
          | false =>
            cases a3 with
            | true => simp [initRun, freadsOf] at h
            | false =>
              cases a4 with
              | true => simp [initRun, freadsOf] at h
              | false =>
                cases a5 with
                | true => simp [initRun, freadsOf] at h
                | false =>
                  cases sf <;> cases hf <;> cases pf <;>
                    simp_all [initRun, freadsOf, structureEvents,
                      configEvents, shadcnEvents, huskyEvents, prismaEvents]

/-- C5 (amended): `package.json` is the only file a run of `init` reads
after having written it; every other file the scaffolder writes is
write-once from the tool's point of view. -/
theorem init_read_back_only_package_json (env : InitEnv) (name p : String)
    (h : p ∈ readBackPaths (initRun env name).1) : p = "package.json" :=
  initRun_fread_only_package_json env name p
    (mem_readsAfterWrite_mem_freads _ [] p (by simpa [readBackPaths] using h))

/-- C5 witness: the amended statement applied to the fully successful run
and the concrete read-back path `package.json`. -/
theorem init_read_back_only_package_json_witness :
    "package.json" ∈ readBackPaths (initRun happyEnv "my-app").1 ∧
    "package.json" = "package.json" :=
  ⟨by decide,
   init_read_back_only_package_json happyEnv "my-app" "package.json" (by decide)⟩

/-- C6: every run of `init` that terminates with status 0 invoked exactly
the nine external commands, in the fixed order create-next-app, the five
`pnpm add` batches (auth, form, state, database, dev), shadcn, husky
init, prisma init; only the first mentions the project name, and each
`pnpm add` command carries its constant package list. -/
theorem init_commands_in_successful_run (env : InitEnv) (name : String)
    (h : (initRun env name).2 = 0) :
    commandsOf (initRun env name).1 =
      [createCmd name, addAuthCmd, addFormCmd, addStateCmd, addDbCmd,
       addDevCmd, shadcnCmd, huskyInitCmd, prismaInitCmd] := by
  obtain ⟨fe, cf, co, a1, a2, a3, a4, a5, sf, hf, pf⟩ := env
  cases fe with
  | true => simp [initRun] at h
  | false =>
    cases cf with
    | true => simp [initRun] at h
    | false =>
      cases co with
      | false => simp [initRun] at h
      | true =>
        cases a1 with
        | true => simp [initRun] at h
        | false =>
          cases a2 with
          | true => simp [initRun] at h
          | false =>
            cases a3 with
            | true => simp [initRun] at h
            | false =>
              cases a4 with
              | true => simp [initRun] at h
              | false =>
                cases a5 with
                | true => simp [initRun] at h
                | false =>
                  cases sf <;> cases hf <;> cases pf <;>
                    simp [initRun, commandsOf, structureEvents,
                      configEvents, shadcnEvents, huskyEvents, prismaEvents]

/-- C6 witness: the command list of the concrete fully successful run. -/
theorem init_commands_in_successful_run_witness :
    (initRun happyEnv "my-app").2 = 0 ∧
    commandsOf (initRun happyEnv "my-app").1 =
      [createCmd "my-app", addAuthCmd, addFormCmd, addStateCmd, addDbCmd,
       addDevCmd, shadcnCmd, huskyInitCmd, prismaInitCmd] :=
  ⟨by decide, init_commands_in_successful_run happyEnv "my-app" (by decide)⟩

/-- C9: when the target directory already exists, `init` exits with
status 1 having produced an empty trace: no external command, no file
write, no directory creation. -/
theorem init_aborts_when_folder_exists (env : InitEnv) (name : String)
    (h : env.folderExists = true) :
    (initRun env name).1 = [] ∧ (initRun env name).2 = 1 ∧
    commandsOf (initRun env name).1 = [] ∧
    writesOf (initRun env name).1 = [] ∧
    mkdirsOf (initRun env name).1 = [] := by
  simp [initRun, h, commandsOf, writesOf, mkdirsOf]

/-- C9 witness: the pre-existing-directory run at a concrete environment. -/
theorem init_aborts_when_folder_exists_witness :
    (initRun { happyEnv with folderExists := true } "demo").1 = [] ∧
    (initRun { happyEnv with folderExists := true } "demo").2 = 1 := by
  have h := init_aborts_when_folder_exists
    { happyEnv with folderExists := true } "demo" (by decide)
  exact ⟨h.1, h.2.1⟩

/-- C10 counterexample.  The claim states that every staged file under
`src/` whose basename begins with `'.'` is reported as a violation.  The
scaffolder's own `src/components/forms/.gitkeep` — the claim's own
example — contains the substring `.git`, so the skip check at the top of
the loop discards it before any validation: the run reports no violation
at all. -/
theorem gitkeep_skipped_not_reported :
    strStartsWith "src/components/forms/.gitkeep" "src/" = true ∧
    strStartsWith (basenameOf "src/components/forms/.gitkeep") "." = true ∧
    fileNameViolation "src/components/forms/.gitkeep" = false ∧
    pathError "src/components/forms/.gitkeep" = false ∧
    runValidator ["src/components/forms/.gitkeep"] = ValidatorOutcome.success := by
  decide

/-- A string starting with `'.'` has `'.'` as its first character. -/
theorem data_of_dot_start (s : String) (h : strStartsWith s "." = true) :
    ∃ t, s.data = '.' :: t := by
  unfold strStartsWith at h
  cases s with
  | mk l =>
    cases l with
    | nil => exact absurd h (by decide)
    | cons c cs =>
      have h2 : ('.' == c) = true := by simpa [List.isPrefixOf] using h
      have h3 : c = '.' := (beq_iff_eq.mp h2).symm
      exact ⟨cs, by simp [h3]⟩

/-- C10 (amended): a staged file under `src/` that survives the
substring skip check and whose basename begins with `'.'` has the empty
string as its pre-dot name, which is not on the allow-list and matches
neither regular expression, so the validator reports it and exits with
status 1; dot-files caught by the skip check (such as any `.gitkeep`,
whose name contains `.git`) are never examined. -/
theorem dotfile_examined_is_violation (p : String)
    (hskip : skipPath p = false) (hsrc : strStartsWith p "src/" = true)
    (hdot : strStartsWith (basenameOf p) "." = true) :
    nameWithoutExt (basenameOf p) = "" ∧
    specialFiles.contains (nameWithoutExt (basenameOf p)) = false ∧
    kebabCase (nameWithoutExt (basenameOf p)) = false ∧
    pascalCase (nameWithoutExt (basenameOf p)) = false ∧
    fileNameViolation p = true ∧
    runValidator [p] = ValidatorOutcome.exitOne := by
  obtain ⟨t, ht⟩ := data_of_dot_start (basenameOf p) hdot
  have hname : nameWithoutExt (basenameOf p) = "" := by
    unfold nameWithoutExt
    rw [ht]
    rfl
  have hval : validateFileName (basenameOf p)
      (isComponentFile (basenameOf p)) = false := by
    simp only [validateFileName, hname]
    cases hc : isComponentFile (basenameOf p) <;> simp [hc] <;> decide
  have hfv : fileNameViolation p = true := by
    simp [fileNameViolation, examined, hskip, hsrc, hval]
  refine ⟨hname, by rw [hname]; decide, by rw [hname]; decide,
    by rw [hname]; decide, hfv, ?_⟩
  simp [runValidator, hasErrorRun, pathError, hfv]

/-- C10 witness: the amended statement applied to the concrete examined
dot-file `src/app/.env`. -/
theorem dotfile_examined_is_violation_witness :
    skipPath "src/app/.env" = false ∧
    runValidator ["src/app/.env"] = ValidatorOutcome.exitOne := by
  have h := dotfile_examined_is_violation "src/app/.env"
    (by decide) (by decide) (by decide)
  exact ⟨by decide, h.2.2.2.2.2⟩

end NextCli

